import Mathlib

/-!
Verification development for a dynamic data-table application.

The program consists of:
* a CSV codec (`parseCSV` / `exportCSV`) built on Papa Parse
  (`header: true`, `skipEmptyLines: true` for parsing; default quoting and
  CRLF record separator for unparsing);
* a Redux store with reducers `setRows`, `updateRow`, `deleteRow` over the
  row collection and `toggleColumn` over the column list, each persisting
  the new snapshot to localStorage;
* a view pipeline in the main component: filter by a global search string,
  sort by an optional column key with a hand-written comparator, then
  paginate by slicing.

The shallow embedding below models JavaScript rows as insertion-ordered
association lists from string keys to dynamically typed values (`JSVal`),
mirroring plain JS objects.  JS numbers are modelled as integers (every
numeric value occurring in the program is integral).  `ToNumber` on strings
is modelled for optionally-signed decimal integer literals and the empty
string; `toLowerCase` is modelled per character (exact on ASCII data).
localStorage persistence is modelled by carrying the stored snapshot
itself rather than its JSON encoding.
-/

/-- A dynamically typed JavaScript value as used by the table:
`undefined`, a number, or a string. -/
inductive JSVal where
  | undef : JSVal
  | num : Int → JSVal
  | str : String → JSVal
deriving DecidableEq

/-- A JS object: insertion-ordered association list from keys to values.
Used both for rows (`RowData`) and for raw parsed CSV records. -/
abbrev Obj := List (String × JSVal)

/-- JS property read `o[k]`: value at the key, `none` when absent. -/
def alook {β : Type} : List (String × β) → String → Option β
  | [], _ => none
  | (k', v) :: rest, k => if k' = k then some v else alook rest k

/-- JS property write `o[k] = v`: replaces the value in place when the key
exists (keeping its position) and appends the key otherwise. -/
def objSet {β : Type} : List (String × β) → String → β → List (String × β)
  | [], k, v => [(k, v)]
  | (k', v') :: rest, k, v =>
      if k' = k then (k', v) :: rest else (k', v') :: objSet rest k v

/-- JS object spread `{ ...base, ...raw }` semantics for the tail part:
assign every field of `raw` (a parsed CSV record, all string values) onto
`base` in order. -/
def spreadRaw (base : Obj) (raw : List (String × String)) : Obj :=
  raw.foldl (fun acc p => objSet acc p.1 (JSVal.str p.2)) base

/-- JS truthiness of an optional string field: `undefined` and `""` are
falsy, every other string is truthy. -/
def truthyS : Option String → Bool
  | none => false
  | some s => s ≠ ""

/-- `raw[k] || d` for string-valued fields. -/
def rawOrS (raw : List (String × String)) (k d : String) : String :=
  match alook raw k with
  | some v => if v = "" then d else v
  | none => d

/-- The id synthesized by `parseCSV` for a row with no truthy raw id:
`` `${Date.now()}-${i}` `` with `Date.now()` abstracted as `now`. -/
def synthId (now i : Nat) : String :=
  toString now ++ "-" ++ toString i

/-- Row construction in `parseCSV`:
`{ id: r.id || synth, name: r.name || "", email: r.email || "",
   age: r.age || 0, role: r.role || "Viewer", ...r }`.
The defaults are written first and then every raw field is spread on top. -/
def mkRow (now i : Nat) (raw : List (String × String)) : Obj :=
  spreadRaw
    [("id", JSVal.str (rawOrS raw "id" (synthId now i))),
     ("name", JSVal.str (rawOrS raw "name" "")),
     ("email", JSVal.str (rawOrS raw "email" "")),
     ("age", match alook raw "age" with
             | some v => if v = "" then JSVal.num 0 else JSVal.str v
             | none => JSVal.num 0),
     ("role", JSVal.str (rawOrS raw "role" "Viewer"))]
    raw

/-! ### Papa Parse model

`Papa.parse(text, { header: true, skipEmptyLines: true })` is modelled by a
character-level scanner.  A quote opens a quoted field only at field start;
inside quotes `""` denotes a literal quote.  Both `\n` and `\r` end a
record; a `\r\n` pair thus yields one real record plus an empty record,
and empty records are dropped afterwards, which coincides with
`skipEmptyLines: true`.  The first remaining record is the header; each
data record is zipped with the header into a raw string record. -/

/-- Scanner state: inside a plain field, inside a quoted field, or just
after a closing quote. -/
inductive PMode where
  | plain : PMode
  | quoted : PMode
  | qclose : PMode
deriving DecidableEq

/-- Character-level CSV record scanner (Papa Parse model).
`f` is the current field, `acc` the fields of the current record. -/
def papaScan : List Char → PMode → List Char → List String → List (List String)
  | [], _, f, acc => if f = [] ∧ acc = [] then [] else [acc ++ [f.asString]]
  | c :: rest, PMode.plain, f, acc =>
      if c = ',' then papaScan rest PMode.plain [] (acc ++ [f.asString])
      else if c = '\n' ∨ c = '\r' then
        (acc ++ [f.asString]) :: papaScan rest PMode.plain [] []
      else if c = '"' ∧ f = [] then papaScan rest PMode.quoted [] acc
      else papaScan rest PMode.plain (f ++ [c]) acc
  | c :: rest, PMode.quoted, f, acc =>
      if c = '"' then papaScan rest PMode.qclose f acc
      else papaScan rest PMode.quoted (f ++ [c]) acc
  | c :: rest, PMode.qclose, f, acc =>
      if c = '"' then papaScan rest PMode.quoted (f ++ ['"']) acc
      else if c = ',' then papaScan rest PMode.plain [] (acc ++ [f.asString])
      else if c = '\n' ∨ c = '\r' then
        (acc ++ [f.asString]) :: papaScan rest PMode.plain [] []
      else papaScan rest PMode.plain (f ++ [c]) acc

/-- All CSV records of a text, with empty records dropped
(`skipEmptyLines: true`). -/
def papaRecords (text : String) : List (List String) :=
  (papaScan text.data PMode.plain [] []).filter (fun r => decide (r ≠ [""]))

/-- Header record and data records of a CSV text (`header: true`). -/
def papaParse (text : String) : List String × List (List String) :=
  match papaRecords text with
  | [] => ([], [])
  | h :: t => (h, t)

/-- `parseCSV` from the CSV utility module: parses the text, constructs one
row per data record via `mkRow`, and collects one error string per data
record whose raw `name` or `email` field is missing or empty.
`Date.now()` is abstracted as the parameter `now`. -/
def parseCSV (now : Nat) (text : String) : List Obj × List String :=
  let hdr := (papaParse text).1
  let recs := (papaParse text).2
  (recs.enum.map (fun p => mkRow now p.1 (hdr.zip p.2)),
   recs.enum.filterMap (fun p =>
     if truthyS (alook (hdr.zip p.2) "name") ∧ truthyS (alook (hdr.zip p.2) "email")
     then none
     else some ("Row " ++ toString (p.1 + 1) ++ ":missing name or email")))

/-! ### Papa unparse model (used by `exportCSV`) -/

/-- Papa's `safe` quoting test: the field contains a quote, the delimiter,
a newline character, a byte-order mark, or has a leading or trailing
space. -/
def needsQuote (s : List Char) : Bool :=
  (s.any (fun c => decide (c = '"' ∨ c = ',' ∨ c = '\n' ∨ c = '\r' ∨ c.toNat = 0xFEFF))) ||
  (match s with
   | [] => false
   | c :: _ => decide (c = ' ')) ||
  (match s.getLast? with
   | some c => decide (c = ' ')
   | none => false)

/-- Double every quote character (Papa's escaped-quote replacement). -/
def dblQuotes : List Char → List Char
  | [] => []
  | c :: cs => if c = '"' then '"' :: '"' :: dblQuotes cs else c :: dblQuotes cs

/-- Serialize one field: double interior quotes, and wrap in quotes when
the quoting test fires. -/
def escapeField (s : List Char) : List Char :=
  if needsQuote s then '"' :: (dblQuotes s ++ ['"']) else dblQuotes s

/-- Join chunks with a separator (no trailing separator). -/
def joinSep (sep : List Char) : List (List Char) → List Char
  | [] => []
  | [x] => x
  | x :: xs => x ++ sep ++ joinSep sep xs

/-- One CSV line: escaped fields joined by the comma delimiter. -/
def csvLine (fields : List (List Char)) : List Char :=
  joinSep [','] (fields.map escapeField)

/-- Full CSV text: lines joined by CRLF, no trailing newline
(Papa's unparse). -/
def unparseRecords (recs : List (List (List Char))) : List Char :=
  joinSep ['\r', '\n'] (recs.map csvLine)

/-- Papa's serialization of one projected cell: `undefined`/absent becomes
the empty field, numbers print in decimal, strings are kept. -/
def serializeVal : Option JSVal → List Char
  | none => []
  | some JSVal.undef => []
  | some (JSVal.str s) => s.data
  | some (JSVal.num n) => (toString n).data

/-- `exportCSV` from the CSV utility module: project every row onto
`visibleKeys` (in that order) and unparse with a header line of the keys.
`Papa.unparse` of an empty row list yields the empty text.  The resulting
text is returned directly (the `Blob` wrapper carries no content of its
own).  Duplicate-free `visibleKeys` is assumed, matching column registry
keys. -/
def exportCSV (rows : List Obj) (visibleKeys : List String) : String :=
  match rows with
  | [] => ""
  | _ =>
    (unparseRecords
      ((visibleKeys.map String.data) ::
        rows.map (fun r => visibleKeys.map (fun k => serializeVal (alook r k))))).asString

/-! ### Redux store model

The `data` slice holds the row collection, the `columns` slice the column
list.  Every reducer writes the new snapshot to localStorage
(`JSON.stringify` is abstracted away: the persisted snapshot is carried
directly). -/

/-- State of the `data` slice: current rows plus the persisted snapshot. -/
structure DataState where
  rows : List Obj
  saved : List Obj
deriving DecidableEq

/-- `setRows` reducer: overwrite the collection and persist it. -/
def setRows (_s : DataState) (rows : List Obj) : DataState :=
  { rows := rows, saved := rows }

/-- `updateRow` reducer: find the first row whose `id` strictly equals the
payload's `id`; replace it in place when found; persist either way. -/
def updateRow (s : DataState) (row : Obj) : DataState :=
  match s.rows.findIdx? (fun r => decide (alook r "id" = alook row "id")) with
  | some idx =>
      let rows' := s.rows.set idx row
      { rows := rows', saved := rows' }
  | none => { rows := s.rows, saved := s.rows }

/-- `deleteRow` reducer: keep the rows whose `id` differs from the payload
string (JS `r.id !== action.payload`); persist the result. -/
def deleteRow (s : DataState) (id : String) : DataState :=
  let rows' := s.rows.filter (fun r => decide (alook r "id" ≠ some (JSVal.str id)))
  { rows := rows', saved := rows' }

/-- The `id` fields of a row collection, in order. -/
def rowIds (rows : List Obj) : List (Option JSVal) :=
  rows.map (fun r => alook r "id")

/-- A column definition: key, display label, visibility flag. -/
structure ColumnDef where
  key : String
  label : String
  visible : Bool
deriving DecidableEq

/-- `toggleColumn` reducer: flip `visible` on the first column whose key
matches (JS `find` + in-place mutation); no-op when the key is absent. -/
def toggleColumn : List ColumnDef → String → List ColumnDef
  | [], _ => []
  | c :: rest, k =>
      if c.key = k then { c with visible := !c.visible } :: rest
      else c :: toggleColumn rest k

/-- The seed rows compiled into the store (`sampleData`). -/
def sampleData : List Obj :=
  [[("id", JSVal.str "1"), ("name", JSVal.str "Alice"),
    ("email", JSVal.str "alice@example.com"), ("age", JSVal.num 27),
    ("role", JSVal.str "Admin")],
   [("id", JSVal.str "2"), ("name", JSVal.str "John"),
    ("email", JSVal.str "john@example.com"), ("age", JSVal.num 28),
    ("role", JSVal.str "IT")],
   [("id", JSVal.str "3"), ("name", JSVal.str "Doby"),
    ("email", JSVal.str "doby@example.com"), ("age", JSVal.num 29),
    ("role", JSVal.str "Operations")]]

/-! ### View pipeline (filter, sort, paginate) -/

/-- Sort direction. -/
inductive SortDir where
  | asc : SortDir
  | desc : SortDir
deriving DecidableEq

/-- Lexicographic (code-unit) strict order on character lists, the JS `<`
on strings. -/
def strLtL : List Char → List Char → Bool
  | [], [] => false
  | [], _ :: _ => true
  | _ :: _, [] => false
  | a :: as, b :: bs => if a < b then true else if b < a then false else strLtL as bs

/-- Whitespace trim on both ends (JS `String.prototype.trim`, ASCII part). -/
def trimL (s : List Char) : List Char :=
  ((s.dropWhile Char.isWhitespace).reverse.dropWhile Char.isWhitespace).reverse

/-- Per-character lower-casing (JS `toLowerCase`, exact on ASCII). -/
def lowerL (s : List Char) : List Char :=
  s.map Char.toLower

/-- Decimal digit list to its numeric value. -/
def digitsVal (ds : List Char) : Int :=
  ds.foldl (fun acc c => 10 * acc + (c.toNat - '0'.toNat : Int)) 0

/-- JS `ToNumber` on a string, modelled for trimmed optionally-signed
decimal integer literals; the empty (or all-whitespace) string converts
to `0`, anything else to NaN (`none`).  Fractions, exponents and hex
literals do not occur in the table's data and are mapped to NaN. -/
def parseNum (s : String) : Option Int :=
  match trimL s.data with
  | [] => some 0
  | '-' :: ds =>
      if ds ≠ [] ∧ ds.all Char.isDigit then some (-(digitsVal ds)) else none
  | '+' :: ds =>
      if ds ≠ [] ∧ ds.all Char.isDigit then some (digitsVal ds) else none
  | ds => if ds.all Char.isDigit then some (digitsVal ds) else none

/-- JS `ToNumber` on a table value. -/
def jsToNum : JSVal → Option Int
  | JSVal.undef => none
  | JSVal.num n => some n
  | JSVal.str s => parseNum s

/-- JS `>` (abstract relational comparison): two strings compare
lexicographically; otherwise both operands convert to numbers and a NaN
operand makes the comparison false. -/
def jsGt : JSVal → JSVal → Bool
  | JSVal.str s, JSVal.str t => strLtL t.data s.data
  | a, b =>
      match jsToNum a, jsToNum b with
      | some x, some y => decide (y < x)
      | _, _ => false

/-- The sort comparator from the view component:
strictly equal values tie; an `undefined` side sorts first ascending and
last descending; otherwise the result of `av > bv ? 1 : -1` with its sign
inverted for descending. -/
def sortCmp (dir : SortDir) (av bv : JSVal) : Int :=
  if av = bv then 0
  else if av = JSVal.undef then (match dir with | SortDir.asc => -1 | SortDir.desc => 1)
  else if bv = JSVal.undef then (match dir with | SortDir.asc => 1 | SortDir.desc => -1)
  else
    let res : Int := if jsGt av bv then 1 else -1
    match dir with
    | SortDir.asc => res
    | SortDir.desc => -res

/-- Insert into a comparator-sorted list (stable: an element moves past
another only when the comparator is positive). -/
def insertCmp {α : Type} (cmp : α → α → Int) (x : α) : List α → List α
  | [] => [x]
  | y :: ys => if cmp x y ≤ 0 then x :: y :: ys else y :: insertCmp cmp x ys

/-- Comparator sort (model of JS `Array.prototype.sort`, which is stable
and, for a consistent comparator, orders by it). -/
def sortByCmp {α : Type} (cmp : α → α → Int) : List α → List α
  | [] => []
  | x :: xs => insertCmp cmp x (sortByCmp cmp xs)

/-- JS `String(v)`: strings unchanged, numbers in decimal, `undefined`
prints as `"undefined"`. -/
def stringOfJS : JSVal → String
  | JSVal.undef => "undefined"
  | JSVal.num n => toString n
  | JSVal.str s => s

/-- `Object.values(r)`: the row's field values in insertion order. -/
def rowValues (r : Obj) : List JSVal :=
  r.map (fun p => p.2)

/-- `needle` is an initial run of `hay`. -/
def leadsL : List Char → List Char → Bool
  | [], _ => true
  | _ :: _, [] => false
  | a :: as, b :: bs => decide (a = b) && leadsL as bs

/-- Substring test: `needle` occurs contiguously in `hay`
(JS `String.prototype.includes`). -/
def containsL (hay needle : List Char) : Bool :=
  match hay with
  | [] => decide (needle = [])
  | _ :: rest => leadsL needle hay || containsL rest needle

/-- The filter stage: with `q` the trimmed lower-cased search text, keep
every row when `q` is empty, else keep a row iff some field value's
string form, lower-cased, contains `q`. -/
def filterStage (rows : List Obj) (search : String) : List Obj :=
  let q := lowerL (trimL search.data)
  rows.filter (fun r =>
    decide (q = []) ||
    (rowValues r).any (fun v => containsL (lowerL (stringOfJS v).data) q))

/-- Row value at the sort key as seen by the comparator:
`(a as any)[sortKey]`, `undefined` when absent. -/
def olookV (r : Obj) (k : String) : JSVal :=
  (alook r k).getD JSVal.undef

/-- The sort stage: identity without a sort key, else a comparator sort on
the values at the key. -/
def sortStage (rows : List Obj) (sortKey : Option String) (dir : SortDir) : List Obj :=
  match sortKey with
  | none => rows
  | some k => sortByCmp (fun a b => sortCmp dir (olookV a k) (olookV b k)) rows

/-- The `filtered` memo of the view component: filter then sort. -/
def filteredSorted (rows : List Obj) (search : String)
    (sortKey : Option String) (dir : SortDir) : List Obj :=
  sortStage (filterStage rows search) sortKey dir

/-- JS `Array.prototype.slice(start, end)` for non-negative bounds. -/
def jsSlice {α : Type} (l : List α) (start stop : Nat) : List α :=
  (l.drop start).take (stop - start)

/-- Transient view query: search text, sort key and direction, page index
and page size. -/
structure ViewQuery where
  searchText : String
  sortKey : Option String
  sortDir : SortDir
  pageIndex : Nat
  pageSize : Nat

/-- The derived view: `paginated` items
(`filtered.slice(page*rowsPerPage, (page+1)*rowsPerPage)`) together with
`totalCount` (`filtered.length`, fed to the pagination control). -/
def computeView (rows : List Obj) (q : ViewQuery) : List Obj × Nat :=
  let fs := filteredSorted rows q.searchText q.sortKey q.sortDir
  (jsSlice fs (q.pageIndex * q.pageSize) ((q.pageIndex + 1) * q.pageSize), fs.length)

/-! ## Helper lemmas on association lists and object spread -/

theorem alook_eq_none_iff {β : Type} (l : List (String × β)) (k : String) :
    alook l k = none ↔ ∀ p ∈ l, p.1 ≠ k := by
  induction l with
  | nil => simp [alook]
  | cons p rest ih =>
    obtain ⟨k0, v0⟩ := p
    by_cases h : k0 = k
    · simp [alook, h]
    · simp [alook, h, ih]

theorem alook_objSet_self {β : Type} (o : List (String × β)) (k : String) (v : β) :
    alook (objSet o k v) k = some v := by
  induction o with
  | nil => simp [objSet, alook]
  | cons p rest ih =>
    obtain ⟨k0, v0⟩ := p
    by_cases h : k0 = k
    · simp [objSet, h, alook]
    · simp [objSet, h, alook, ih]

theorem alook_objSet_other {β : Type} (o : List (String × β)) (k k' : String) (v : β)
    (h : k ≠ k') : alook (objSet o k v) k' = alook o k' := by
  induction o with
  | nil => simp [objSet, alook, h]
  | cons p rest ih =>
    obtain ⟨k0, v0⟩ := p
    by_cases h0 : k0 = k
    · subst h0; simp [objSet, alook, h]
    · simp [objSet, h0, alook, ih]

theorem spreadRaw_cons (o : Obj) (p : String × String) (rest : List (String × String)) :
    spreadRaw o (p :: rest) = spreadRaw (objSet o p.1 (JSVal.str p.2)) rest := rfl

theorem alook_spreadRaw_notmem (raw : List (String × String)) (o : Obj) (k : String)
    (h : ∀ p ∈ raw, p.1 ≠ k) :
    alook (spreadRaw o raw) k = alook o k := by
  induction raw generalizing o with
  | nil => rfl
  | cons p rest ih =>
    rw [spreadRaw_cons, ih _ (fun q hq => h q (List.mem_cons_of_mem _ hq)),
        alook_objSet_other _ _ _ _ (h p (List.mem_cons_self _ _))]

theorem alook_spreadRaw_mem (raw : List (String × String)) (o : Obj) (k v : String)
    (hnd : (raw.map Prod.fst).Nodup) (h : alook raw k = some v) :
    alook (spreadRaw o raw) k = some (JSVal.str v) := by
  induction raw generalizing o with
  | nil => simp [alook] at h
  | cons p rest ih =>
    obtain ⟨k0, v0⟩ := p
    simp only [List.map_cons, List.nodup_cons] at hnd
    by_cases hk : k0 = k
    · subst hk
      have hne : ∀ q ∈ rest, q.1 ≠ k0 := by
        intro q hq hqk
        exact hnd.1 (hqk ▸ List.mem_map_of_mem Prod.fst hq)
      simp [alook] at h
      rw [spreadRaw_cons, alook_spreadRaw_notmem _ _ _ hne, alook_objSet_self, h]
    · simp only [alook, if_neg hk] at h
      rw [spreadRaw_cons]
      exact ih _ hnd.2 h

/-- Raw fields win in `mkRow`: any key present in the raw record keeps its
raw value in the constructed row. -/
theorem mkRow_raw_field (now i : Nat) (raw : List (String × String)) (k v : String)
    (hnd : (raw.map Prod.fst).Nodup) (h : alook raw k = some v) :
    alook (mkRow now i raw) k = some (JSVal.str v) :=
  alook_spreadRaw_mem raw _ k v hnd h

/-- Without a raw `id` field the constructed row carries the synthesized id. -/
theorem mkRow_id_default (now i : Nat) (raw : List (String × String))
    (h : alook raw "id" = none) :
    alook (mkRow now i raw) "id" = some (JSVal.str (synthId now i)) := by
  unfold mkRow
  rw [alook_spreadRaw_notmem _ _ _ ((alook_eq_none_iff raw "id").mp h)]
  simp [alook, rawOrS, h]

theorem synthId_ne_empty (now i : Nat) : synthId now i ≠ "" := by
  intro h
  have : (synthId now i).data = [] := by rw [h]
  rw [synthId, String.data_append, String.data_append] at this
  simp [String.data] at this

/-! ## C1: raw CSV fields override computed defaults -/

/-- C1: in `parseCSV`, every field present as a key in the raw parsed
record — truthy or not — ends up holding exactly its raw value in the
constructed row, because the raw record is spread on top of the computed
defaults; in particular a raw empty-string `id` overwrites the freshly
synthesized id, while a row with no raw `id` key keeps the synthesized
one. -/
theorem C1_raw_fields_override (now i : Nat) (raw : List (String × String)) (k v : String)
    (hnd : (raw.map Prod.fst).Nodup) (hk : alook raw k = some v) :
    alook (mkRow now i raw) k = some (JSVal.str v) ∧
    (alook raw "id" = some "" →
      alook (mkRow now i raw) "id" = some (JSVal.str "") ∧
      alook (mkRow now i raw) "id" ≠ some (JSVal.str (synthId now i))) := by
  refine ⟨mkRow_raw_field now i raw k v hnd hk, fun hid => ?_⟩
  have h0 := mkRow_raw_field now i raw "id" "" hnd hid
  refine ⟨h0, fun hcontra => ?_⟩
  rw [h0] at hcontra
  exact synthId_ne_empty now i (by simpa using hcontra.symm)

/-- Witness for C1 at a concrete raw record with an empty raw `id`. -/
theorem C1_raw_fields_override_witness :
    alook (mkRow 7 0 [("id", ""), ("name", "x")]) "id" = some (JSVal.str "") ∧
    alook (mkRow 7 0 [("id", ""), ("name", "x")]) "id" ≠ some (JSVal.str (synthId 7 0)) :=
  (C1_raw_fields_override 7 0 [("id", ""), ("name", "x")] "name" "x"
    (by decide) (by decide)).2 (by decide)

/-! ## C2: the id-uniqueness invariant is broken by CSV import -/

/-- A CSV text with an `id` column holding the empty value in two data
rows. -/
def dupIdCSV : String := "id,name,email\n,a,a@x.com\n,b,b@x.com"

/-- C2 (failing input): importing `dupIdCSV` and replacing the collection
with the parsed rows yields a reachable state with two rows whose `id` is
the same empty string, so the "no two rows share an `id`" invariant does
not hold in every reachable state.  The raw empty `id` fields overwrite
the synthesized ids for any value of `Date.now()`. -/
theorem C2_csv_import_breaks_id_uniqueness (now : Nat) (s0 : DataState) :
    rowIds (setRows s0 (parseCSV now dupIdCSV).1).rows
      = [some (JSVal.str ""), some (JSVal.str "")] ∧
    ¬ (rowIds (setRows s0 (parseCSV now dupIdCSV).1).rows).Nodup := by
  have hrows : (parseCSV now dupIdCSV).1 =
      [mkRow now 0 [("id", ""), ("name", "a"), ("email", "a@x.com")],
       mkRow now 1 [("id", ""), ("name", "b"), ("email", "b@x.com")]] := rfl
  have h0 := mkRow_raw_field now 0 [("id", ""), ("name", "a"), ("email", "a@x.com")]
    "id" "" (by decide) (by decide)
  have h1 := mkRow_raw_field now 1 [("id", ""), ("name", "b"), ("email", "b@x.com")]
    "id" "" (by decide) (by decide)
  constructor
  · show rowIds (parseCSV now dupIdCSV).1 = _
    rw [hrows]
    simp [rowIds, h0, h1]
  · show ¬ (rowIds (parseCSV now dupIdCSV).1).Nodup
    rw [hrows]
    simp [rowIds, h0, h1]

/-! ## C6: updateRow semantics -/

theorem list_set_append_len {α : Type} (pre : List α) (t : α) (post : List α) (y : α) :
    (pre ++ t :: post).set pre.length y = pre ++ y :: post := by
  induction pre with
  | nil => rfl
  | cons a rest ih => simp [List.set, ih]

theorem findIdx?_first_match {α : Type} (p : α → Bool) (pre : List α) (t : α) (post : List α)
    (hpre : ∀ r ∈ pre, p r = false) (ht : p t = true) :
    (pre ++ t :: post).findIdx? p = some pre.length := by
  induction pre with
  | nil => simp [List.findIdx?_cons, ht]
  | cons a rest ih =>
    have ha : p a = false := hpre a (List.mem_cons_self _ _)
    simp [List.findIdx?_cons, ha,
      ih (fun r hr => hpre r (List.mem_cons_of_mem _ hr))]

/-- C6: `update(row)` with an `id` matching no stored row leaves the
collection unchanged (no error, no insertion); with a matching `id` it
replaces the first matching row's full contents verbatim, preserving its
position and every other row; in both cases the new collection is
persisted. -/
theorem C6_updateRow (s : DataState) (row : Obj) :
    ((∀ r ∈ s.rows, alook r "id" ≠ alook row "id") →
        updateRow s row = { rows := s.rows, saved := s.rows }) ∧
    (∀ pre t post, s.rows = pre ++ t :: post →
        alook t "id" = alook row "id" →
        (∀ r ∈ pre, alook r "id" ≠ alook row "id") →
        (updateRow s row).rows = pre ++ row :: post) ∧
    (updateRow s row).saved = (updateRow s row).rows := by
  refine ⟨?_, ?_, ?_⟩
  · intro h
    have : s.rows.findIdx? (fun r => decide (alook r "id" = alook row "id")) = none := by
      rw [List.findIdx?_eq_none_iff]
      intro r hr
      simpa using h r hr
    rw [updateRow, this]
  · intro pre t post hsplit hmatch hpre
    have hidx : s.rows.findIdx? (fun r => decide (alook r "id" = alook row "id"))
        = some pre.length := by
      rw [hsplit]
      exact findIdx?_first_match _ pre t post
        (fun r hr => by simpa using hpre r hr) (by simpa using hmatch)
    rw [updateRow, hidx]
    simp only
    rw [hsplit, list_set_append_len]
  · rw [updateRow]
    cases s.rows.findIdx? (fun r => decide (alook r "id" = alook row "id")) <;> rfl

/-- Witness for C6: replacing the first row of a two-row collection. -/
theorem C6_updateRow_witness :
    (updateRow { rows := [[("id", JSVal.str "1"), ("age", JSVal.num 5)],
                          [("id", JSVal.str "2")]], saved := [] }
        [("id", JSVal.str "1"), ("age", JSVal.num 9)]).rows
      = [[("id", JSVal.str "1"), ("age", JSVal.num 9)], [("id", JSVal.str "2")]] :=
  (C6_updateRow _ _).2.1 [] [("id", JSVal.str "1"), ("age", JSVal.num 5)]
    [[("id", JSVal.str "2")]] rfl (by decide) (by decide)

/-! ## C7: deleteRow removes matching rows and is idempotent -/

/-- C7: `delete(id)` keeps exactly the rows whose `id` differs from the
given id (in order), deleting an absent id leaves the collection
unchanged, a second identical delete produces the same state as the
first, and the result is persisted. -/
theorem C7_deleteRow (s : DataState) (id : String) :
    (∀ r, r ∈ (deleteRow s id).rows ↔
        r ∈ s.rows ∧ alook r "id" ≠ some (JSVal.str id)) ∧
    ((∀ r ∈ s.rows, alook r "id" ≠ some (JSVal.str id)) →
        (deleteRow s id).rows = s.rows) ∧
    deleteRow (deleteRow s id) id = deleteRow s id ∧
    (deleteRow s id).saved = (deleteRow s id).rows := by
  refine ⟨?_, ?_, ?_, rfl⟩
  · intro r
    simp [deleteRow, List.mem_filter]
  · intro h
    simp only [deleteRow]
    exact List.filter_eq_self.mpr (fun r hr => by simpa using h r hr)
  · simp only [deleteRow, List.filter_filter]
    congr 1 <;> simp

/-- Witness for C7: deleting an absent id from a one-row collection. -/
theorem C7_deleteRow_witness :
    (deleteRow { rows := [[("id", JSVal.str "1")]],
                 saved := [[("id", JSVal.str "1")]] } "zz").rows
      = [[("id", JSVal.str "1")]] :=
  (C7_deleteRow _ "zz").2.1 (by decide)

/-! ## C10: toggleColumn frame conditions -/

/-- C10: `toggleVisibility(key)` changes at most the `visible` flag of the
first column whose key matches: the length is preserved, a missing key is
a no-op, the first match keeps its key and label with only `visible`
flipped and every other column untouched, and toggling twice restores the
original list. -/
theorem C10_toggleColumn (cols : List ColumnDef) (k : String) :
    (toggleColumn cols k).length = cols.length ∧
    ((∀ c ∈ cols, c.key ≠ k) → toggleColumn cols k = cols) ∧
    (∀ pre c post, cols = pre ++ c :: post → c.key = k →
        (∀ c' ∈ pre, c'.key ≠ k) →
        toggleColumn cols k = pre ++ { c with visible := !c.visible } :: post) ∧
    toggleColumn (toggleColumn cols k) k = cols := by
  refine ⟨?_, ?_, ?_, ?_⟩
  · induction cols with
    | nil => rfl
    | cons c rest ih =>
      by_cases h : c.key = k <;> simp [toggleColumn, h, ih]
  · intro h
    induction cols with
    | nil => rfl
    | cons c rest ih =>
      have hc : c.key ≠ k := h c (List.mem_cons_self _ _)
      simp [toggleColumn, hc, ih (fun c' hc' => h c' (List.mem_cons_of_mem _ hc'))]
  · intro pre c post hsplit hkey hpre
    subst hsplit
    induction pre with
    | nil => simp [toggleColumn, hkey]
    | cons a rest ih =>
      have ha : a.key ≠ k := hpre a (List.mem_cons_self _ _)
      simp only [List.cons_append, toggleColumn, if_neg ha, List.append_eq]
      rw [ih (fun c' hc' => hpre c' (List.mem_cons_of_mem _ hc'))]
  · induction cols with
    | nil => rfl
    | cons c rest ih =>
      obtain ⟨ck, cl, cv⟩ := c
      by_cases h : ck = k
      · simp [toggleColumn, h]
      · simp [toggleColumn, h, ih]

/-- Witness for C10: toggling a key absent from a one-column registry. -/
theorem C10_toggleColumn_witness :
    toggleColumn [{ key := "name", label := "Name", visible := true }] "zz"
      = [{ key := "name", label := "Name", visible := true }] :=
  (C10_toggleColumn [{ key := "name", label := "Name", visible := true }] "zz").2.1
    (by decide)

/-! ## C3: the sort comparator -/

theorem strLtL_asymm : ∀ u v : List Char, strLtL u v = true → strLtL v u = false
  | [], [] => by simp [strLtL]
  | [], _ :: _ => by simp [strLtL]
  | _ :: _, [] => by simp [strLtL]
  | a :: as, b :: bs => by
    intro h
    simp only [strLtL] at h ⊢
    rcases lt_trichotomy a b with h1 | h1 | h1
    · rw [if_neg (lt_asymm h1), if_pos h1]
    · subst h1
      simp only [lt_irrefl, if_neg (lt_irrefl a)] at h ⊢
      exact strLtL_asymm as bs h
    · rw [if_neg (lt_asymm h1), if_pos h1] at h
      exact absurd h (by simp)

theorem strLtL_total_of_ne : ∀ u v : List Char, u ≠ v →
    strLtL u v = true ∨ strLtL v u = true
  | [], [] => fun h => absurd rfl h
  | [], _ :: _ => fun _ => Or.inl (by simp [strLtL])
  | _ :: _, [] => fun _ => Or.inr (by simp [strLtL])
  | a :: as, b :: bs => by
    intro h
    simp only [strLtL]
    rcases lt_trichotomy a b with h1 | h1 | h1
    · exact Or.inl (by rw [if_pos h1])
    · subst h1
      have : as ≠ bs := fun hh => h (by rw [hh])
      rcases strLtL_total_of_ne as bs this with h2 | h2
      · exact Or.inl (by rw [if_neg (lt_irrefl a), if_neg (lt_irrefl a), h2])
      · exact Or.inr (by rw [if_neg (lt_irrefl a), if_neg (lt_irrefl a), h2])
    · exact Or.inr (by rw [if_pos h1])

/-- The comparator exactly as the claim describes it, with the
disputed clause taken literally: when the two operand types differ, the
values are compared via string coercion. -/
def specCmpDescribed (dir : SortDir) (a b : JSVal) : Int :=
  if a = b then 0
  else if a = JSVal.undef then (match dir with | SortDir.asc => -1 | SortDir.desc => 1)
  else if b = JSVal.undef then (match dir with | SortDir.asc => 1 | SortDir.desc => -1)
  else
    let base : Int :=
      match a, b with
      | JSVal.num x, JSVal.num y => if x < y then -1 else 1
      | JSVal.str s, JSVal.str t => if strLtL s.data t.data then -1 else 1
      | a, b =>
          if strLtL (stringOfJS a).data (stringOfJS b).data then -1
          else if stringOfJS a = stringOfJS b then 0 else 1
    match dir with
    | SortDir.asc => base
    | SortDir.desc => -base

/-- C3 counterexample: on the mixed-type pair `10 > "9"` JavaScript
converts the string to a number (`10 > 9`, true), while string coercion
would compare `"10" < "9"`; the code comparator answers `1` where the
described comparator answers `-1`. -/
theorem C3_counterexample :
    sortCmp SortDir.asc (JSVal.num 10) (JSVal.str "9") = 1 ∧
    specCmpDescribed SortDir.asc (JSVal.num 10) (JSVal.str "9") = -1 ∧
    sortCmp SortDir.asc (JSVal.num 10) (JSVal.str "9")
      ≠ specCmpDescribed SortDir.asc (JSVal.num 10) (JSVal.str "9") := by
  decide

/-- The comparator as amended: when the two operand types differ, both
operands are converted to numbers (JavaScript relational comparison) and
compared numerically, an unconvertible string making the `>` test false
so the comparator answers `-1`. -/
def specCmpAmended (dir : SortDir) (a b : JSVal) : Int :=
  if a = b then 0
  else if a = JSVal.undef then (match dir with | SortDir.asc => -1 | SortDir.desc => 1)
  else if b = JSVal.undef then (match dir with | SortDir.asc => 1 | SortDir.desc => -1)
  else
    let base : Int :=
      match a, b with
      | JSVal.num x, JSVal.num y => if x < y then -1 else 1
      | JSVal.str s, JSVal.str t => if strLtL s.data t.data then -1 else 1
      | JSVal.num x, JSVal.str t =>
          match parseNum t with
          | some y => if x ≤ y then -1 else 1
          | none => -1
      | JSVal.str s, JSVal.num y =>
          match parseNum s with
          | some x => if x ≤ y then -1 else 1
          | none => -1
      | _, _ => 0
    match dir with
    | SortDir.asc => base
    | SortDir.desc => -base

/-- Rows with ages 30, absent, 20 (the spec's sorting example). -/
def ageRow30 : Obj := [("id", JSVal.str "a"), ("age", JSVal.num 30)]

def ageRowU : Obj := [("id", JSVal.str "b")]

def ageRow20 : Obj := [("id", JSVal.str "c"), ("age", JSVal.num 20)]

/-- C3 (amended): the view's sort comparator ties strictly equal values
(including two absences), sorts an absent side first ascending and last
descending, compares two numbers numerically and two strings in
code-unit lexicographic order with the sign inverted for descending, and
when the types differ converts both operands to numbers (string
coercion would differ, see the counterexample); sorting by `age`
ascending over ages `[30, absent, 20]` yields `[absent, 20, 30]` and
descending yields `[30, 20, absent]`. -/
theorem C3_comparator_amended :
    (∀ dir a b, sortCmp dir a b = specCmpAmended dir a b) ∧
    filteredSorted [ageRow30, ageRowU, ageRow20] "" (some "age") SortDir.asc
      = [ageRowU, ageRow20, ageRow30] ∧
    filteredSorted [ageRow30, ageRowU, ageRow20] "" (some "age") SortDir.desc
      = [ageRow30, ageRow20, ageRowU] := by
  refine ⟨?_, by decide, by decide⟩
  intro dir a b
  by_cases hab : a = b
  · simp [sortCmp, specCmpAmended, hab]
  rcases a with _ | x | s <;> rcases b with _ | y | t
  · exact absurd rfl hab
  · cases dir <;> simp [sortCmp, specCmpAmended, hab]
  · cases dir <;> simp [sortCmp, specCmpAmended, hab]
  · cases dir <;> simp [sortCmp, specCmpAmended, hab]
  · have hxy : x ≠ y := by rintro rfl; exact hab rfl
    rcases lt_trichotomy x y with h1 | h1 | h1
    · have h2 : ¬ y < x := by omega
      cases dir <;> simp [sortCmp, specCmpAmended, hab, jsGt, jsToNum, h1, h2]
    · exact absurd h1 hxy
    · have h2 : ¬ x < y := by omega
      cases dir <;> simp [sortCmp, specCmpAmended, hab, jsGt, jsToNum, h1, h2]
  · cases hpt : parseNum t with
    | some m =>
      by_cases hm : m < x
      · have h2 : ¬ x ≤ m := by omega
        cases dir <;> simp [sortCmp, specCmpAmended, hab, jsGt, jsToNum, hpt, hm, h2]
      · have h2 : x ≤ m := by omega
        cases dir <;> simp [sortCmp, specCmpAmended, hab, jsGt, jsToNum, hpt, hm, h2]
    | none =>
      cases dir <;> simp [sortCmp, specCmpAmended, hab, jsGt, jsToNum, hpt]
  · cases dir <;> simp [sortCmp, specCmpAmended, hab]
  · cases hps : parseNum s with
    | some m =>
      by_cases hm : y < m
      · have h2 : ¬ m ≤ y := by omega
        cases dir <;> simp [sortCmp, specCmpAmended, hab, jsGt, jsToNum, hps, hm, h2]
      · have h2 : m ≤ y := by omega
        cases dir <;> simp [sortCmp, specCmpAmended, hab, jsGt, jsToNum, hps, hm, h2]
    | none =>
      cases dir <;> simp [sortCmp, specCmpAmended, hab, jsGt, jsToNum, hps]
  · have hst : s ≠ t := by rintro rfl; exact hab rfl
    have hdata : s.data ≠ t.data := fun hd => hst (String.ext hd)
    by_cases hts : strLtL t.data s.data = true
    · have h2 : strLtL s.data t.data = false := strLtL_asymm _ _ hts
      cases dir <;> simp [sortCmp, specCmpAmended, hab, jsGt, hts, h2]
    · have h3 : strLtL t.data s.data = false := by simpa using hts
      have h2 : strLtL s.data t.data = true := by
        rcases strLtL_total_of_ne _ _ hdata with h | h
        · exact h
        · exact absurd h hts
      cases dir <;> simp [sortCmp, specCmpAmended, hab, jsGt, h3, h2]

/-! ## C4: best-effort import with per-row errors -/

theorem filterMap_if_none {α β : Type} (P : α → Prop) [DecidablePred P] (g : α → β)
    (l : List α) :
    l.filterMap (fun a => if P a then none else some (g a))
      = (l.filter (fun a => decide (¬ P a))).map g := by
  induction l with
  | nil => rfl
  | cons a rest ih =>
    by_cases h : P a <;> simp [h, ih]

/-- C4: `parseCSV` constructs one row per (non-empty) data record — no row
is dropped — and collects, in row order, exactly one error string per data
record whose raw `name` or `email` field is missing or empty, naming the
1-based data-row index; on `"name,email\n,bob@x.com\n"` it imports one
row and reports one error for data row 1. -/
theorem C4_parse_errors (now : Nat) (text : String) :
    (parseCSV now text).1.length = (papaParse text).2.length ∧
    (parseCSV now text).2
      = (((papaParse text).2.enum.filter (fun p =>
            decide (¬ (truthyS (alook ((papaParse text).1.zip p.2) "name")
                    ∧ truthyS (alook ((papaParse text).1.zip p.2) "email"))))).map
          (fun p => "Row " ++ toString (p.1 + 1) ++ ":missing name or email")) ∧
    (parseCSV now "name,email\n,bob@x.com\n").1.length = 1 ∧
    (parseCSV now "name,email\n,bob@x.com\n").2 = ["Row 1:missing name or email"] := by
  refine ⟨?_, ?_, rfl, rfl⟩
  · show ((papaParse text).2.enum.map _).length = _
    rw [List.length_map, List.enum_length]
  · show (papaParse text).2.enum.filterMap _ = _
    exact filterMap_if_none
      (fun p => truthyS (alook ((papaParse text).1.zip p.2) "name")
              ∧ truthyS (alook ((papaParse text).1.zip p.2) "email"))
      (fun p => "Row " ++ toString (p.1 + 1) ++ ":missing name or email")
      (papaParse text).2.enum

/-! ## C9: the filter stage -/

/-- C9: a row passes the filter stage iff the trimmed lower-cased search
text is empty or some field value of the row, stringified and
lower-cased, contains it as a substring; searching `"alice"` over the
seed rows (exactly one of which holds the email `alice@example.com`)
returns only that row with `totalCount` 1. -/
theorem C9_filter (rows : List Obj) (search : String) (r : Obj) :
    (r ∈ filterStage rows search ↔
      r ∈ rows ∧
        (lowerL (trimL search.data) = [] ∨
          ∃ v ∈ rowValues r,
            containsL (lowerL (stringOfJS v).data) (lowerL (trimL search.data)) = true)) ∧
    computeView sampleData
        { searchText := "alice", sortKey := none, sortDir := SortDir.asc,
          pageIndex := 0, pageSize := 5 }
      = ([[("id", JSVal.str "1"), ("name", JSVal.str "Alice"),
           ("email", JSVal.str "alice@example.com"), ("age", JSVal.num 27),
           ("role", JSVal.str "Admin")]], 1) := by
  refine ⟨?_, by decide⟩
  simp [filterStage, List.mem_filter, List.any_eq_true]

/-! ## C8: pagination -/

/-- Twelve distinct rows used for the pagination example. -/
def rows12 : List Obj :=
  (List.range 12).map (fun i =>
    [("id", JSVal.str (toString i)), ("name", JSVal.str ("user" ++ toString i))])

/-- C8: the view's items are exactly the slice
`[pageIndex*pageSize, (pageIndex+1)*pageSize)` of the filtered-and-sorted
sequence and `totalCount` is that sequence's length; over the 12 example
rows with `pageSize = 5`, `pageIndex = 1` the view holds the rows at
original indices 5–9 and `totalCount = 12`. -/
theorem C8_pagination (rows : List Obj) (q : ViewQuery) (hps : 0 < q.pageSize) :
    (computeView rows q).2 = (filteredSorted rows q.searchText q.sortKey q.sortDir).length ∧
    (computeView rows q).1.length
      = min q.pageSize
          ((filteredSorted rows q.searchText q.sortKey q.sortDir).length
            - q.pageIndex * q.pageSize) ∧
    (∀ j, j < q.pageSize →
      (computeView rows q).1[j]?
        = (filteredSorted rows q.searchText q.sortKey q.sortDir)[q.pageIndex * q.pageSize + j]?) ∧
    computeView rows12
        { searchText := "", sortKey := none, sortDir := SortDir.asc,
          pageIndex := 1, pageSize := 5 }
      = ([5, 6, 7, 8, 9].map (fun i =>
          [("id", JSVal.str (toString i)), ("name", JSVal.str ("user" ++ toString i))]),
         12) := by
  have hspan : (q.pageIndex + 1) * q.pageSize - q.pageIndex * q.pageSize = q.pageSize := by
    have h1 : (q.pageIndex + 1) * q.pageSize = q.pageIndex * q.pageSize + q.pageSize := by ring
    omega
  refine ⟨rfl, ?_, ?_, by decide⟩
  · show (jsSlice (filteredSorted rows q.searchText q.sortKey q.sortDir)
        (q.pageIndex * q.pageSize) ((q.pageIndex + 1) * q.pageSize)).length = _
    rw [jsSlice, List.length_take, List.length_drop, hspan]
  · intro j hj
    show (jsSlice (filteredSorted rows q.searchText q.sortKey q.sortDir)
        (q.pageIndex * q.pageSize) ((q.pageIndex + 1) * q.pageSize))[j]? = _
    rw [jsSlice, hspan, List.getElem?_take_of_lt hj, List.getElem?_drop]

/-- Witness for C8 at the concrete 12-row example. -/
theorem C8_pagination_witness :
    computeView rows12
        { searchText := "", sortKey := none, sortDir := SortDir.asc,
          pageIndex := 1, pageSize := 5 }
      = ([5, 6, 7, 8, 9].map (fun i =>
          [("id", JSVal.str (toString i)), ("name", JSVal.str ("user" ++ toString i))]),
         12) :=
  (C8_pagination rows12
    { searchText := "", sortKey := none, sortDir := SortDir.asc,
      pageIndex := 1, pageSize := 5 } (by decide)).2.2.2

/-! ## C5: CSV round-trip

The serialize-then-parse round trip is settled through a chain of lemmas
about `papaScan` consuming the output of the unparser. -/

/-- A scanner input that continues with a field separator, a record
separator, or ends. -/
def SepHead (rest : List Char) : Prop :=
  rest = [] ∨ (∃ r, rest = ',' :: r) ∨ (∃ r, rest = '\n' :: r) ∨ (∃ r, rest = '\r' :: r)

/-- The scanner's behaviour right after a field with content `f`:
a comma continues the record, a newline emits it, end of input emits it
unless nothing at all was read. -/
def postField (f : List Char) (rest : List Char) (acc : List String) : List (List String) :=
  match rest with
  | ',' :: r => papaScan r PMode.plain [] (acc ++ [f.asString])
  | '\n' :: r => (acc ++ [f.asString]) :: papaScan r PMode.plain [] []
  | '\r' :: r => (acc ++ [f.asString]) :: papaScan r PMode.plain [] []
  | _ => if f = [] ∧ acc = [] then [] else [acc ++ [f.asString]]

theorem papaScan_plain_append (f : List Char) :
    ∀ (g : List Char) (rest : List Char) (acc : List String),
    (∀ c ∈ f, c ≠ '"' ∧ c ≠ ',' ∧ c ≠ '\n' ∧ c ≠ '\r') →
    papaScan (f ++ rest) PMode.plain g acc = papaScan rest PMode.plain (g ++ f) acc := by
  induction f with
  | nil => intro g rest acc _; rw [List.nil_append, List.append_nil]
  | cons c f' ih =>
    intro g rest acc h
    have hc := h c (List.mem_cons_self _ _)
    rw [List.cons_append]
    show papaScan (c :: (f' ++ rest)) PMode.plain g acc = _
    rw [papaScan, if_neg hc.2.1, if_neg (by simp [hc.2.2.1, hc.2.2.2]),
        if_neg (by intro hcontra; exact hc.1 hcontra.1)]
    rw [ih (g ++ [c]) rest acc (fun d hd => h d (List.mem_cons_of_mem _ hd))]
    rw [List.append_assoc]
    rfl

theorem papaScan_quoted_append (f : List Char) :
    ∀ (g : List Char) (rest : List Char) (acc : List String),
    papaScan (dblQuotes f ++ '"' :: rest) PMode.quoted g acc
      = papaScan rest PMode.qclose (g ++ f) acc := by
  induction f with
  | nil =>
    intro g rest acc
    rw [dblQuotes, List.nil_append, List.append_nil]
    rw [papaScan, if_pos rfl]
  | cons c f' ih =>
    intro g rest acc
    by_cases hc : c = '"'
    · subst hc
      rw [dblQuotes, if_pos rfl]
      show papaScan ('"' :: ('"' :: (dblQuotes f' ++ '"' :: rest))) PMode.quoted g acc = _
      rw [papaScan, if_pos rfl]
      rw [papaScan, if_pos rfl]
      rw [ih (g ++ ['"']) rest acc, List.append_assoc]
      rfl
    · rw [dblQuotes, if_neg hc]
      show papaScan (c :: (dblQuotes f' ++ '"' :: rest)) PMode.quoted g acc = _
      rw [papaScan, if_neg hc]
      rw [ih (g ++ [c]) rest acc, List.append_assoc]
      rfl

theorem dblQuotes_eq_self (f : List Char) (h : ∀ c ∈ f, c ≠ '"') :
    dblQuotes f = f := by
  induction f with
  | nil => rfl
  | cons c f' ih =>
    rw [dblQuotes, if_neg (h c (List.mem_cons_self _ _)),
        ih (fun d hd => h d (List.mem_cons_of_mem _ hd))]

theorem needsQuote_false_spec (f : List Char) (h : needsQuote f = false) :
    ∀ c ∈ f, c ≠ '"' ∧ c ≠ ',' ∧ c ≠ '\n' ∧ c ≠ '\r' := by
  intro c hc
  have hany : f.any (fun c => decide (c = '"' ∨ c = ',' ∨ c = '\n' ∨ c = '\r' ∨ c.toNat = 0xFEFF)) = false := by
    rw [needsQuote.eq_def] at h
    rcases Bool.or_eq_false_iff.mp h with ⟨h1, _⟩
    exact (Bool.or_eq_false_iff.mp h1).1
  rw [List.any_eq_false] at hany
  have := hany c hc
  simp only [decide_eq_true_eq] at this
  push_neg at this
  exact ⟨this.1, this.2.1, this.2.2.1, this.2.2.2.1⟩

theorem papaScan_escapeField (f : List Char) (rest : List Char) (acc : List String)
    (hsep : SepHead rest) :
    papaScan (escapeField f ++ rest) PMode.plain [] acc = postField f rest acc := by
  by_cases hq : needsQuote f
  · rw [escapeField, if_pos hq]
    show papaScan ('"' :: (dblQuotes f ++ ['"'] ++ rest)) PMode.plain [] acc = _
    rw [papaScan, if_neg (by decide), if_neg (by decide), if_pos ⟨rfl, rfl⟩]
    rw [List.append_assoc, List.singleton_append, papaScan_quoted_append f [] rest acc,
        List.nil_append]
    rcases hsep with hrest | ⟨r, hrest⟩ | ⟨r, hrest⟩ | ⟨r, hrest⟩ <;> subst hrest
    · rfl
    · rw [papaScan, if_neg (by decide), if_pos rfl]
      rfl
    · rw [papaScan, if_neg (by decide), if_neg (by decide), if_pos (by decide)]
      rfl
    · rw [papaScan, if_neg (by decide), if_neg (by decide), if_pos (by decide)]
      rfl
  · have hns := needsQuote_false_spec f (by simpa using hq)
    rw [escapeField, if_neg hq, dblQuotes_eq_self f (fun c hc => (hns c hc).1)]
    rw [papaScan_plain_append f [] rest acc hns, List.nil_append]
    rcases hsep with hrest | ⟨r, hrest⟩ | ⟨r, hrest⟩ | ⟨r, hrest⟩ <;> subst hrest
    · rfl
    · rw [papaScan, if_pos rfl]
      rfl
    · rw [papaScan, if_neg (by decide), if_pos (by decide)]
      rfl
    · rw [papaScan, if_neg (by decide), if_pos (by decide)]
      rfl

theorem csvLine_singleton (f : List Char) : csvLine [f] = escapeField f := rfl

theorem csvLine_cons (f f2 : List Char) (fs : List (List Char)) :
    csvLine (f :: f2 :: fs) = escapeField f ++ ',' :: csvLine (f2 :: fs) := by
  have h0 : csvLine (f :: f2 :: fs)
      = escapeField f ++ [','] ++ csvLine (f2 :: fs) := rfl
  rw [h0, List.append_assoc]
  rfl

theorem papaScan_line_newline (fs : List (List Char)) :
    ∀ (r : List Char) (acc : List String), fs ≠ [] →
    papaScan (csvLine fs ++ '\r' :: r) PMode.plain [] acc
      = (acc ++ fs.map (fun f => f.asString)) :: papaScan r PMode.plain [] [] := by
  induction fs with
  | nil => intro r acc h; exact absurd rfl h
  | cons f fs' ih =>
    intro r acc _
    cases fs' with
    | nil =>
      rw [csvLine_singleton, papaScan_escapeField f ('\r' :: r) acc
        (Or.inr (Or.inr (Or.inr ⟨r, rfl⟩)))]
      rfl
    | cons f2 fs'' =>
      rw [csvLine_cons, List.append_assoc, List.cons_append,
          papaScan_escapeField f (',' :: (csvLine (f2 :: fs'') ++ '\r' :: r)) acc
            (Or.inr (Or.inl ⟨_, rfl⟩))]
      show papaScan (csvLine (f2 :: fs'') ++ '\r' :: r) PMode.plain [] (acc ++ [f.asString]) = _
      rw [ih r (acc ++ [f.asString]) (by simp)]
      rw [List.append_assoc]
      rfl

theorem papaScan_line_eof (fs : List (List Char)) :
    ∀ (acc : List String), fs ≠ [] → ¬(fs = [[]] ∧ acc = []) →
    papaScan (csvLine fs) PMode.plain [] acc = [acc ++ fs.map (fun f => f.asString)] := by
  induction fs with
  | nil => intro acc h _; exact absurd rfl h
  | cons f fs' ih =>
    intro acc _ hguard
    cases fs' with
    | nil =>
      have h0 : csvLine [f] = csvLine [f] ++ [] := by rw [List.append_nil]
      rw [h0, csvLine_singleton, papaScan_escapeField f [] acc (Or.inl rfl)]
      show (if f = [] ∧ acc = [] then ([] : List (List String))
            else [acc ++ [f.asString]]) = _
      rw [if_neg (by
        rintro ⟨hf, hacc⟩
        exact hguard ⟨by rw [hf], hacc⟩)]
      rfl
    | cons f2 fs'' =>
      rw [csvLine_cons,
          papaScan_escapeField f (',' :: csvLine (f2 :: fs'')) acc
            (Or.inr (Or.inl ⟨_, rfl⟩))]
      show papaScan (csvLine (f2 :: fs'')) PMode.plain [] (acc ++ [f.asString]) = _
      rw [ih (acc ++ [f.asString]) (by simp) (by simp)]
      rw [List.append_assoc]
      rfl

/-- The raw records produced by scanning a joined line list: one record
per line, with a spurious empty record between consecutive lines (the
`\n` half of each CRLF), which `skipEmptyLines` removes. -/
def recsOfLines : List (List (List Char)) → List (List String)
  | [] => []
  | [l] => [l.map (fun f => f.asString)]
  | l :: ls => l.map (fun f => f.asString) :: [""] :: recsOfLines ls

theorem papaScan_unparse (ls : List (List (List Char)))
    (h : ∀ l ∈ ls, l ≠ [] ∧ l ≠ [[]]) :
    papaScan (joinSep ['\r', '\n'] (ls.map csvLine)) PMode.plain [] []
      = recsOfLines ls := by
  induction ls with
  | nil => rfl
  | cons l ls' ih =>
    cases ls' with
    | nil =>
      have h1 := h l (List.mem_cons_self _ _)
      show papaScan (csvLine l) PMode.plain [] [] = [l.map (fun f => f.asString)]
      rw [papaScan_line_eof l [] h1.1 (by rintro ⟨hl, _⟩; exact h1.2 hl)]
      rfl
    | cons l2 ls'' =>
      have h1 := h l (List.mem_cons_self _ _)
      have hjoin : joinSep ['\r', '\n'] ((l :: l2 :: ls'').map csvLine)
          = csvLine l ++ '\r' :: '\n' :: joinSep ['\r', '\n'] ((l2 :: ls'').map csvLine) := by
        have h0 : joinSep ['\r', '\n'] ((l :: l2 :: ls'').map csvLine)
            = csvLine l ++ ['\r', '\n'] ++ joinSep ['\r', '\n'] ((l2 :: ls'').map csvLine) := rfl
        rw [h0, List.append_assoc]
        rfl
      rw [hjoin, papaScan_line_newline l _ [] h1.1]
      rw [papaScan, if_neg (by decide), if_pos (by decide)]
      rw [ih (fun l' hl' => h l' (List.mem_cons_of_mem _ hl'))]
      rfl

theorem asString_eq_empty_iff (f : List Char) : f.asString = "" ↔ f = [] := by
  constructor
  · intro h
    have := congrArg String.data h
    simpa using this
  · rintro rfl
    rfl

theorem mapAsString_ne_single_empty (l : List (List Char)) (h1 : l ≠ []) (h2 : l ≠ [[]]) :
    l.map (fun f => f.asString) ≠ [""] := by
  cases l with
  | nil => exact absurd rfl h1
  | cons f fs =>
    cases fs with
    | nil =>
      intro hcontra
      simp only [List.map_cons, List.map_nil, List.cons.injEq, and_true] at hcontra
      exact h2 (by rw [(asString_eq_empty_iff f).mp hcontra])
    | cons f2 fs' => simp

theorem filter_recsOfLines (ls : List (List (List Char)))
    (h : ∀ l ∈ ls, l ≠ [] ∧ l ≠ [[]]) :
    (recsOfLines ls).filter (fun r => decide (r ≠ [""]))
      = ls.map (fun l => l.map (fun f => f.asString)) := by
  induction ls with
  | nil => rfl
  | cons l ls' ih =>
    have h1 := h l (List.mem_cons_self _ _)
    have hne := mapAsString_ne_single_empty l h1.1 h1.2
    cases ls' with
    | nil =>
      show ([l.map (fun f => f.asString)].filter _) = _
      simp [List.filter, hne]
    | cons l2 ls'' =>
      show ((l.map (fun f => f.asString) :: [""] :: recsOfLines (l2 :: ls'')).filter
          (fun r => decide (r ≠ [""]))) = _
      have hrest := ih (fun l' hl' => h l' (List.mem_cons_of_mem _ hl'))
      simp only [List.filter_cons, hne, ne_eq, decide_not] at hrest ⊢
      simp [hrest]

/-- The value stored at a key is a string (a value that survives string
round-tripping). -/
def isStrVal : Option JSVal → Bool
  | some (JSVal.str _) => true
  | _ => false

theorem alook_zip_map (keys : List String) (g : String → String) :
    ∀ k ∈ keys, alook (keys.zip (keys.map g)) k = some (g k) := by
  induction keys with
  | nil => intro k hk; cases hk
  | cons k0 rest ih =>
    intro k hk
    rw [List.map_cons, List.zip_cons_cons]
    by_cases h : k0 = k
    · subst h
      simp [alook]
    · have hmem : k ∈ rest := by
        rcases List.mem_cons.mp hk with h1 | h1
        · exact absurd h1.symm h
        · exact h1
      simp [alook, h, ih k hmem]

theorem roundtrip_row (now n : Nat) (keys : List String) (hnd : keys.Nodup)
    (r : Obj) (hstr : ∀ k ∈ keys, isStrVal (alook r k) = true) :
    ∀ k ∈ keys,
      alook (mkRow now n
        (keys.zip (keys.map (fun k => (serializeVal (alook r k)).asString)))) k
      = alook r k := by
  intro k hk
  obtain ⟨s, hs⟩ : ∃ s, alook r k = some (JSVal.str s) := by
    have := hstr k hk
    cases hv : alook r k with
    | none => rw [hv] at this; simp [isStrVal] at this
    | some v =>
      cases v with
      | undef => rw [hv] at this; simp [isStrVal] at this
      | num m => rw [hv] at this; simp [isStrVal] at this
      | str s => exact ⟨s, rfl⟩
  have hraw : alook (keys.zip (keys.map (fun k => (serializeVal (alook r k)).asString))) k
      = some ((serializeVal (alook r k)).asString) := alook_zip_map keys _ k hk
  have hrawnd : ((keys.zip (keys.map (fun k => (serializeVal (alook r k)).asString))).map
      Prod.fst).Nodup := by
    rw [List.map_fst_zip _ _ (by rw [List.length_map])]
    exact hnd
  rw [mkRow_raw_field now n _ k _ hrawnd hraw, hs]
  rfl

theorem roundtrip_rows (now : Nat) (keys : List String) (hnd : keys.Nodup) :
    ∀ (rows : List Obj) (n : Nat),
    (∀ r ∈ rows, ∀ k ∈ keys, isStrVal (alook r k) = true) →
    (((rows.map (fun r => keys.map (fun k => (serializeVal (alook r k)).asString))).enumFrom n).map
        (fun p => keys.map (fun k => alook (mkRow now p.1 (keys.zip p.2)) k)))
      = rows.map (fun r => keys.map (fun k => alook r k)) := by
  intro rows
  induction rows with
  | nil => intro n _; rfl
  | cons r rs ih =>
    intro n hstr
    rw [List.map_cons]
    have henum : ((keys.map (fun k => (serializeVal (alook r k)).asString)) ::
          rs.map (fun r => keys.map (fun k => (serializeVal (alook r k)).asString))).enumFrom n
        = (n, keys.map (fun k => (serializeVal (alook r k)).asString)) ::
          (rs.map (fun r => keys.map (fun k => (serializeVal (alook r k)).asString))).enumFrom
            (n + 1) := by
      simp [List.enumFrom]
    rw [henum, List.map_cons, List.map_cons]
    have hzip : keys.zip (keys.map (fun k => (serializeVal (alook r k)).asString))
        = keys.zip (keys.map (fun k => (serializeVal (alook r k)).asString)) := rfl
    congr 1
    · exact List.map_eq_map_iff.mpr
        (roundtrip_row now n keys hnd r (hstr r (List.mem_cons_self _ _)))
    · exact ih (n + 1) (fun r' hr' => hstr r' (List.mem_cons_of_mem _ hr'))

theorem papaParse_of_records (text : String) (h : List String) (t : List (List String))
    (hrec : papaRecords text = h :: t) : papaParse text = (h, t) := by
  rw [papaParse.eq_def, hrec]

/-- C5 counterexample: serializing the single row whose only projected
field is the empty string produces a lone empty data line, which
`skipEmptyLines` drops on re-parse; the round trip loses the row even
though its value is a plain string. -/
theorem C5_roundtrip_counterexample :
    (parseCSV 0 (exportCSV [[("name", JSVal.str "")]] ["name"])).1.map
        (fun r => ["name"].map (fun k => alook r k))
      ≠ [[("name", JSVal.str "")]].map (fun r => ["name"].map (fun k => alook r k)) := by
  decide

/-- C5 (amended): for every row set and key subset whose values at those
keys are strings, parsing the serialization and projecting back onto the
keys returns exactly the original projections, provided no serialized
line (the header, or a data row) is empty — an empty line would be
dropped by `skipEmptyLines` on re-parse (see the counterexample). -/
theorem C5_roundtrip_amended (now : Nat) (rows : List Obj) (keys : List String)
    (hnd : keys.Nodup)
    (hstr : ∀ r ∈ rows, ∀ k ∈ keys, isStrVal (alook r k) = true)
    (hhdr : csvLine (keys.map String.data) ≠ [])
    (hlines : ∀ r ∈ rows, csvLine (keys.map (fun k => serializeVal (alook r k))) ≠ []) :
    (parseCSV now (exportCSV rows keys)).1.map (fun r => keys.map (fun k => alook r k))
      = rows.map (fun r => keys.map (fun k => alook r k)) := by
  cases rows with
  | nil => rfl
  | cons r0 rs =>
    have hexport : exportCSV (r0 :: rs) keys
        = (unparseRecords ((keys.map String.data) ::
            (r0 :: rs).map (fun r => keys.map (fun k => serializeVal (alook r k))))).asString :=
      rfl
    have hlnz : ∀ l ∈ ((keys.map String.data) ::
        (r0 :: rs).map (fun r => keys.map (fun k => serializeVal (alook r k)))),
        l ≠ [] ∧ l ≠ [[]] := by
      intro l hl
      have hcsv : csvLine l ≠ [] := by
        rcases List.mem_cons.mp hl with h1 | h1
        · rw [h1]; exact hhdr
        · obtain ⟨r, hr, hr2⟩ := List.mem_map.mp h1
          rw [← hr2]; exact hlines r hr
      constructor
      · rintro rfl; exact hcsv rfl
      · rintro rfl; exact hcsv rfl
    have hrecords : papaRecords (exportCSV (r0 :: rs) keys)
        = ((keys.map String.data) ::
            (r0 :: rs).map (fun r => keys.map (fun k => serializeVal (alook r k)))).map
            (fun l => l.map (fun f => f.asString)) := by
      rw [hexport]
      show (papaScan (joinSep ['\r', '\n']
          (((keys.map String.data) ::
            (r0 :: rs).map (fun r => keys.map (fun k => serializeVal (alook r k)))).map csvLine))
          PMode.plain [] []).filter (fun r => decide (r ≠ [""])) = _
      rw [papaScan_unparse _ hlnz, filter_recsOfLines _ hlnz]
    have hhdr_rec : (keys.map String.data).map (fun f => f.asString) = keys := by
      rw [List.map_map]
      have hcomp : ((fun f : List Char => f.asString) ∘ String.data) = id :=
        funext (fun s => rfl)
      rw [hcomp, List.map_id]
    have hrec : papaRecords (exportCSV (r0 :: rs) keys)
        = keys :: (r0 :: rs).map (fun r =>
            keys.map (fun k => (serializeVal (alook r k)).asString)) := by
      rw [hrecords, List.map_cons, hhdr_rec, List.map_map]
      refine congrArg (keys :: ·) ?_
      exact List.map_eq_map_iff.mpr (fun r _ => by
        rw [Function.comp_apply, List.map_map]
        rfl)
    have hpp := papaParse_of_records _ _ _ hrec
    have hparsed : (parseCSV now (exportCSV (r0 :: rs) keys)).1
        = (((r0 :: rs).map (fun r =>
            keys.map (fun k => (serializeVal (alook r k)).asString))).enum).map
            (fun p => mkRow now p.1 (keys.zip p.2)) := by
      show ((papaParse (exportCSV (r0 :: rs) keys)).2).enum.map
          (fun p => mkRow now p.1 ((papaParse (exportCSV (r0 :: rs) keys)).1.zip p.2)) = _
      rw [hpp]
    rw [hparsed, List.map_map]
    exact roundtrip_rows now keys hnd (r0 :: rs) 0 hstr

/-- Witness for C5 on a concrete two-key row set. -/
theorem C5_roundtrip_amended_witness :
    (parseCSV 0 (exportCSV [[("name", JSVal.str "bob"), ("id", JSVal.str "7")]]
        ["name", "id"])).1.map (fun r => ["name", "id"].map (fun k => alook r k))
      = [[("name", JSVal.str "bob"), ("id", JSVal.str "7")]].map
          (fun r => ["name", "id"].map (fun k => alook r k)) :=
  C5_roundtrip_amended 0 [[("name", JSVal.str "bob"), ("id", JSVal.str "7")]]
    ["name", "id"] (by decide) (by decide) (by decide) (by decide)
